import Mathlib

/-!
Shallow embedding of the `/api/search` handler of `app.py` (Flask API for the
Haven & Hearth RAG service) and a verification of the spec's claims about its
retrieval-and-aggregation logic.

Modelling decisions:
* A retrieved chunk `(doc, score)` from `vectorstore.similarity_search_with_score`
  is a `Chunk` carrying `doc.page_content`, `doc.metadata['source']`,
  `doc.metadata.get('filename', '')` and the `score` (modelled as `ℚ`).
* The vector store is external: it is passed to `search` as a function
  `similarity_search_with_score : String → Int → Except String (List Chunk)`;
  `Except.error msg` models a raised exception, caught by the handler's
  `try/except` and turned into a 500 response.
* The Python `dict` `grouped` (insertion-ordered in Python 3.7+) is modelled as
  a `List DocumentGroup`; `source not in grouped` is membership of the source
  in the list of keys, and updating `grouped[source]` is a `map` touching the
  unique group with that source.
* Python's `sorted(..., key=lambda x: x['best_score'])` is a stable ascending
  sort by key; it is modelled by the stable `List.insertionSort` with the
  relation `bestScoreLE`, and `[:max_files]` (`max_files ≥ 0`) by `List.take`.
-/

/-- One retrieved chunk as produced by the retrieval adapter. -/
structure Chunk where
  content : String
  source : String
  filename : String
  score : ℚ
deriving DecidableEq, Repr

/-- The per-source aggregation record built by the grouping loop of `search`
(`grouped[source]` in `app.py`): `chunks` holds the reduced
`{'content': ..., 'score': ...}` entries. -/
structure DocumentGroup where
  source : String
  filename : String
  chunks : List (String × ℚ)
  best_score : ℚ
deriving DecidableEq, Repr

/-- The JSON body of a 200 response of `/api/search`. -/
structure SearchResponse where
  query : String
  results : List DocumentGroup
  count : Nat
deriving DecidableEq, Repr

/-- The possible HTTP responses of the `/api/search` handler. -/
inductive HttpResponse where
  | ok (body : SearchResponse)
  | clientError (msg : String)
  | serverError (msg : String)
deriving DecidableEq, Repr

/-- Python's `str.strip()`: remove leading and trailing whitespace
(`query = data.get('query', '').strip()`, `app.py` line 57). -/
def strip (s : String) : String :=
  ⟨((s.data.dropWhile Char.isWhitespace).reverse.dropWhile Char.isWhitespace).reverse⟩

/-- One iteration of the grouping loop (`app.py` lines 69–81): create the
group on first sight of a source (`best_score` seeded from that chunk's score,
`chunks` starting empty), then append `{content, score}` to the group's
`chunks`. -/
def addChunk (grouped : List DocumentGroup) (c : Chunk) : List DocumentGroup :=
  let grouped' :=
    if c.source ∈ grouped.map DocumentGroup.source then grouped
    else grouped ++ [{ source := c.source, filename := c.filename,
                       chunks := [], best_score := c.score }]
  grouped'.map fun g =>
    if g.source = c.source then
      { g with chunks := g.chunks ++ [(c.content, c.score)] }
    else g

/-- The whole grouping loop over the raw chunk sequence. -/
def groupChunks (results : List Chunk) : List DocumentGroup :=
  results.foldl addChunk []

/-- The sort key comparison used on `app.py` line 84. -/
def bestScoreLE (a b : DocumentGroup) : Prop :=
  a.best_score ≤ b.best_score

instance : DecidableRel bestScoreLE := fun a b =>
  inferInstanceAs (Decidable (a.best_score ≤ b.best_score))

instance : IsTotal DocumentGroup bestScoreLE :=
  ⟨fun a b => le_total a.best_score b.best_score⟩

instance : IsTrans DocumentGroup bestScoreLE :=
  ⟨fun _ _ _ h h' => le_trans h h'⟩

/-- `sorted(grouped.values(), key=lambda x: x['best_score'])[:max_files]`
(`app.py` line 84): stable ascending sort by `best_score`, then truncation. -/
def sortedResults (results : List Chunk) (max_files : Nat) : List DocumentGroup :=
  (List.insertionSort bestScoreLE (groupChunks results)).take max_files

/-- The `/api/search` handler (`app.py` lines 49–93).  `vectorstore_loaded`
models the `if not vectorstore` guard; `similarity_search_with_score` models
the external vector store call, with `Except.error` standing for a raised
exception, which the surrounding `try/except` converts to a 500 response. -/
def search (vectorstore_loaded : Bool)
    (similarity_search_with_score : String → Int → Except String (List Chunk))
    (query : String) (top_k : Int) (max_files : Nat) : HttpResponse :=
  if !vectorstore_loaded then
    .serverError "Vector store not initialized"
  else
    let q := strip query
    if q = "" then
      .clientError "Query cannot be empty"
    else
      match similarity_search_with_score q top_k with
      | .error e => .serverError e
      | .ok results =>
          let sorted_results := sortedResults results max_files
          .ok { query := q, results := sorted_results,
                count := sorted_results.length }

/-! ### Specification-side characterisation of the grouping loop -/

/-- Record a source in first-encounter order. -/
def insertSource (sources : List String) (s : String) : List String :=
  if s ∈ sources then sources else sources ++ [s]

/-- The distinct sources of a chunk stream, in first-encounter order. -/
def sourcesInOrder (results : List Chunk) : List String :=
  results.foldl (fun acc c => insertSource acc c.source) []

/-- The chunks of a stream having a given source, in arrival order. -/
def chunksFor (results : List Chunk) (s : String) : List Chunk :=
  results.filter fun c => decide (c.source = s)

/-- The group that the grouping loop builds for source `s`: metadata from the
first-seen chunk with that source, chunk entries in arrival order. -/
def groupFor (results : List Chunk) (s : String) : DocumentGroup :=
  { source := s
  , filename := ((chunksFor results s).head?.map Chunk.filename).getD ""
  , chunks := (chunksFor results s).map fun c => (c.content, c.score)
  , best_score := ((chunksFor results s).head?.map Chunk.score).getD 0 }

/-- `min(chunk['score'] for chunk in chunks)` with default `0` on the empty
list (groups never have empty `chunks`). -/
def minScore : List (String × ℚ) → ℚ
  | [] => 0
  | p :: t => t.foldl (fun m q => min m q.2) p.2

/-! ### Lemmas about sources -/

theorem mem_insertSource {acc : List String} {s x : String} :
    x ∈ insertSource acc s ↔ x ∈ acc ∨ x = s := by
  unfold insertSource
  split
  · rename_i h
    constructor
    · exact Or.inl
    · rintro (hx | rfl)
      · exact hx
      · exact h
  · simp

theorem mem_foldl_insertSource (l : List Chunk) (acc : List String) (x : String) :
    x ∈ l.foldl (fun a c => insertSource a c.source) acc ↔
      x ∈ acc ∨ x ∈ l.map Chunk.source := by
  induction l generalizing acc with
  | nil => simp
  | cons c t ih => simp [List.foldl_cons, ih, mem_insertSource, or_assoc]

theorem mem_sourcesInOrder {l : List Chunk} {x : String} :
    x ∈ sourcesInOrder l ↔ x ∈ l.map Chunk.source := by
  simpa using mem_foldl_insertSource l [] x

theorem nodup_insertSource {acc : List String} {s : String} (h : acc.Nodup) :
    (insertSource acc s).Nodup := by
  unfold insertSource
  split
  · exact h
  · rename_i hn
    exact List.Nodup.append h (List.nodup_singleton s) (by simpa using hn)

theorem sourcesInOrder_nodup (l : List Chunk) : (sourcesInOrder l).Nodup := by
  have key : ∀ (t : List Chunk) (acc : List String), acc.Nodup →
      (t.foldl (fun a c => insertSource a c.source) acc).Nodup := by
    intro t
    induction t with
    | nil => exact fun _ h => h
    | cons c t ih => exact fun acc h => ih _ (nodup_insertSource h)
  exact key l [] List.nodup_nil

theorem sourcesInOrder_append (l : List Chunk) (c : Chunk) :
    sourcesInOrder (l ++ [c]) = insertSource (sourcesInOrder l) c.source := by
  unfold sourcesInOrder
  rw [List.foldl_append]
  rfl

/-! ### Lemmas about per-source chunk selection -/

theorem chunksFor_append (l l' : List Chunk) (s : String) :
    chunksFor (l ++ l') s = chunksFor l s ++ chunksFor l' s :=
  List.filter_append ..

theorem chunksFor_eq_nil_iff {l : List Chunk} {s : String} :
    chunksFor l s = [] ↔ s ∉ l.map Chunk.source := by
  unfold chunksFor
  rw [List.filter_eq_nil_iff]
  simp [eq_comm]

theorem chunksFor_singleton_self (c : Chunk) : chunksFor [c] c.source = [c] := by
  simp [chunksFor]

theorem chunksFor_singleton_ne {c : Chunk} {s : String} (h : s ≠ c.source) :
    chunksFor [c] s = [] := by
  have h' : ¬(c.source = s) := fun hh => h hh.symm
  simp [chunksFor, h']

theorem chunksFor_sublist (l : List Chunk) (s : String) :
    List.Sublist (chunksFor l s) l :=
  List.filter_sublist l

/-! ### The grouping loop builds exactly the per-source groups -/

theorem map_source_groupFor (l : List Chunk) (ss : List String) :
    (ss.map (groupFor l)).map DocumentGroup.source = ss := by
  simp [List.map_map, Function.comp_def, groupFor]

theorem groupChunks_append (l : List Chunk) (c : Chunk) :
    groupChunks (l ++ [c]) = addChunk (groupChunks l) c := by
  unfold groupChunks
  rw [List.foldl_append]
  rfl

theorem groupChunks_eq (l : List Chunk) :
    groupChunks l = (sourcesInOrder l).map (groupFor l) := by
  induction l using List.reverseRecOn with
  | nil => rfl
  | append_singleton l c ih =>
    rw [groupChunks_append, sourcesInOrder_append, ih]
    unfold addChunk insertSource
    rw [map_source_groupFor]
    by_cases hmem : c.source ∈ sourcesInOrder l
    · rw [if_pos hmem, if_pos hmem, List.map_map]
      refine List.map_congr_left fun s hs => ?_
      by_cases hsc : s = c.source
      · have hne : chunksFor l c.source ≠ [] := by
          rw [Ne, chunksFor_eq_nil_iff, not_not]
          exact mem_sourcesInOrder.mp hmem
        obtain ⟨d, t, hdt⟩ := List.exists_cons_of_ne_nil hne
        subst hsc
        simp [Function.comp_def, groupFor, chunksFor_append, hdt,
          chunksFor_singleton_self]
      · have hnil : chunksFor [c] s = [] := chunksFor_singleton_ne hsc
        simp [Function.comp_def, groupFor, chunksFor_append, hnil, hsc]
    · rw [if_neg hmem, if_neg hmem, List.map_append, List.map_append, List.map_map]
      have h1 : (sourcesInOrder l).map
          ((fun g => if g.source = c.source then
              { g with chunks := g.chunks ++ [(c.content, c.score)] }
            else g) ∘ groupFor l) =
          (sourcesInOrder l).map (groupFor (l ++ [c])) := by
        refine List.map_congr_left fun s hs => ?_
        have hsc : s ≠ c.source := fun h => hmem (h ▸ hs)
        have hnil : chunksFor [c] s = [] := chunksFor_singleton_ne hsc
        simp [Function.comp_def, groupFor, chunksFor_append, hnil, hsc]
      have hempty : chunksFor l c.source = [] := by
        rw [chunksFor_eq_nil_iff]
        exact fun h => hmem (mem_sourcesInOrder.mpr h)
      have h2 : groupFor (l ++ [c]) c.source =
          { source := c.source, filename := c.filename,
            chunks := [(c.content, c.score)], best_score := c.score } := by
        simp [groupFor, chunksFor_append, hempty, chunksFor_singleton_self]
      rw [h1]
      simp [h2]

/-! ### Consequences of the characterisation -/

theorem map_source_groupChunks (l : List Chunk) :
    (groupChunks l).map DocumentGroup.source = sourcesInOrder l := by
  rw [groupChunks_eq, map_source_groupFor]

theorem mem_groupChunks_iff {l : List Chunk} {g : DocumentGroup} :
    g ∈ groupChunks l ↔ g.source ∈ sourcesInOrder l ∧ g = groupFor l g.source := by
  rw [groupChunks_eq]
  constructor
  · intro h
    obtain ⟨s, hs, rfl⟩ := List.mem_map.mp h
    exact ⟨hs, rfl⟩
  · rintro ⟨hs, hg⟩
    exact List.mem_map.mpr ⟨g.source, hs, hg.symm⟩

theorem groupChunks_nodup (l : List Chunk) : (groupChunks l).Nodup :=
  List.Nodup.of_map DocumentGroup.source
    (by rw [map_source_groupChunks]; exact sourcesInOrder_nodup l)

theorem chunksFor_ne_nil_of_mem_sources {l : List Chunk} {s : String}
    (h : s ∈ sourcesInOrder l) : chunksFor l s ≠ [] := by
  rw [Ne, chunksFor_eq_nil_iff, not_not]
  exact mem_sourcesInOrder.mp h

theorem sourcesInOrder_length (l : List Chunk) :
    (sourcesInOrder l).length = (l.map Chunk.source).toFinset.card := by
  rw [← List.toFinset_card_of_nodup (sourcesInOrder_nodup l)]
  congr 1
  ext x
  simp [List.mem_toFinset, mem_sourcesInOrder]

/-! ### Sublist order facts -/

theorem pair_sublist_of_mem {α : Type} {l : List α} {a b : α}
    (ha : a ∈ l) (hb : b ∈ l) (hne : a ≠ b) :
    List.Sublist [a, b] l ∨ List.Sublist [b, a] l := by
  induction l with
  | nil => cases ha
  | cons x t ih =>
    rcases List.mem_cons.mp ha with rfl | ha'
    · have hb' : b ∈ t := by
        rcases List.mem_cons.mp hb with rfl | h
        · exact absurd rfl hne
        · exact h
      exact Or.inl (List.cons_sublist_cons.mpr (List.singleton_sublist.mpr hb'))
    · rcases List.mem_cons.mp hb with rfl | hb'
      · exact Or.inr (List.cons_sublist_cons.mpr (List.singleton_sublist.mpr ha'))
      · rcases ih ha' hb' with h | h
        · exact Or.inl (h.cons x)
        · exact Or.inr (h.cons x)

theorem pair_sublist_antisymm {α : Type} :
    ∀ {l : List α}, l.Nodup → ∀ {a b : α},
      List.Sublist [a, b] l → List.Sublist [b, a] l → a = b := by
  intro l
  induction l with
  | nil =>
    intro _ a b h
    cases h
  | cons x t ih =>
    intro hnd a b h1 h2
    have hx : x ∉ t := (List.nodup_cons.mp hnd).1
    cases h1 with
    | cons _ h1' =>
      cases h2 with
      | cons _ h2' => exact ih (List.nodup_cons.mp hnd).2 h1' h2'
      | cons₂ _ h2' =>
        exact absurd (h1'.subset (show x ∈ [a, x] by simp)) hx
    | cons₂ _ h1' =>
      cases h2 with
      | cons _ h2' =>
        exact absurd (h2'.subset (show x ∈ [b, x] by simp)) hx
      | cons₂ _ h2' => rfl

/-! ### Properties of the sorted, truncated result list -/

theorem mem_sortedResults {l : List Chunk} {mf : Nat} {g : DocumentGroup}
    (h : g ∈ sortedResults l mf) : g ∈ groupChunks l := by
  unfold sortedResults at h
  exact (List.mem_insertionSort bestScoreLE).mp (List.take_subset mf _ h)

theorem sortedResults_pairwise (l : List Chunk) (mf : Nat) :
    (sortedResults l mf).Pairwise bestScoreLE :=
  List.Pairwise.sublist (List.take_sublist mf _)
    (List.sorted_insertionSort bestScoreLE (groupChunks l))

theorem sortedResults_length (l : List Chunk) (mf : Nat) :
    (sortedResults l mf).length = min (l.map Chunk.source).toFinset.card mf := by
  unfold sortedResults
  rw [List.length_take, List.length_insertionSort, groupChunks_eq, List.length_map,
    sourcesInOrder_length, Nat.min_comm]

theorem sortedResults_stable (l : List Chunk) (mf : Nat) {g1 g2 : DocumentGroup}
    (h : List.Sublist [g1, g2] (sortedResults l mf))
    (heq : g1.best_score = g2.best_score) :
    List.Sublist [g1.source, g2.source] (sourcesInOrder l) := by
  have hsort : List.Sublist [g1, g2] (List.insertionSort bestScoreLE (groupChunks l)) :=
    h.trans (List.take_sublist mf _)
  have hnd : (groupChunks l).Nodup := groupChunks_nodup l
  have hnds : (List.insertionSort bestScoreLE (groupChunks l)).Nodup :=
    (List.perm_insertionSort bestScoreLE (groupChunks l)).nodup_iff.mpr hnd
  have hg1 : g1 ∈ groupChunks l := by
    have := hsort.subset (show g1 ∈ [g1, g2] by simp)
    rwa [List.mem_insertionSort] at this
  have hg2 : g2 ∈ groupChunks l := by
    have := hsort.subset (show g2 ∈ [g1, g2] by simp)
    rwa [List.mem_insertionSort] at this
  have hne : g1 ≠ g2 := by
    rintro rfl
    have hp : List.Pairwise (· ≠ ·) [g1, g1] := List.Pairwise.sublist hsort hnds
    exact (List.pairwise_cons.mp hp).1 g1 (by simp) rfl
  rcases pair_sublist_of_mem hg1 hg2 hne with hp | hp
  · have hmap := hp.map DocumentGroup.source
    rw [map_source_groupChunks] at hmap
    simpa using hmap
  · have h21 : List.Sublist [g2, g1] (List.insertionSort bestScoreLE (groupChunks l)) :=
      List.pair_sublist_insertionSort (show bestScoreLE g2 g1 from heq.ge) hp
    exact absurd (pair_sublist_antisymm hnds hsort h21) hne

/-! ### The success path of the handler -/

theorem search_ok (f : String → Int → Except String (List Chunk))
    (q : String) (tk : Int) (mf : Nat) (l : List Chunk)
    (hq : strip q ≠ "") (hf : f (strip q) tk = .ok l) :
    search true f q tk mf =
      .ok { query := strip q, results := sortedResults l mf,
            count := (sortedResults l mf).length } := by
  simp [search, hq, hf]

/-! ### Minimum of a group's chunk scores -/

theorem foldl_min_eq_self {m : ℚ} {t : List (String × ℚ)} (h : ∀ p ∈ t, m ≤ p.2) :
    t.foldl (fun m q => min m q.2) m = m := by
  induction t generalizing m with
  | nil => rfl
  | cons p t ih =>
    rw [List.foldl_cons, min_eq_left (h p (by simp))]
    exact ih fun q hq => h q (by simp [hq])

theorem best_score_eq_minScore_of_sorted {l : List Chunk}
    (hs : l.Pairwise fun a b => a.score ≤ b.score) {g : DocumentGroup}
    (hg : g ∈ groupChunks l) : g.best_score = minScore g.chunks := by
  rw [groupChunks_eq] at hg
  obtain ⟨s, hsmem, rfl⟩ := List.mem_map.mp hg
  obtain ⟨d, t, hdt⟩ := List.exists_cons_of_ne_nil (chunksFor_ne_nil_of_mem_sources hsmem)
  have hsub : List.Pairwise (fun a b : Chunk => a.score ≤ b.score) (chunksFor l s) :=
    List.Pairwise.sublist (chunksFor_sublist l s) hs
  rw [hdt] at hsub
  have hd : ∀ c' ∈ t, d.score ≤ c'.score := (List.pairwise_cons.mp hsub).1
  simp only [groupFor, hdt, List.head?_cons, Option.map_some', Option.getD_some,
    List.map_cons, minScore]
  exact (foldl_min_eq_self fun p hp => by
    obtain ⟨c', hc', rfl⟩ := List.mem_map.mp hp
    exact hd c' hc').symm

/-! ### The claims -/

/-- C9: while the vector store is not initialized the handler returns the 500
response "Vector store not initialized" for every request — including one whose
trimmed query is empty — and never the 400 InvalidQuery response: the
readiness check precedes query validation. -/
theorem not_ready_before_validation
    (f : String → Int → Except String (List Chunk)) (q : String) (tk : Int) (mf : Nat) :
    search false f q tk mf = .serverError "Vector store not initialized" ∧
      ∀ m, search false f q tk mf ≠ .clientError m := by
  refine ⟨rfl, fun m => ?_⟩
  simp [search]

/-- C5: with the store loaded, an empty-after-trim query yields the 400
response "Query cannot be empty" and the retrieval adapter is never consulted
(the response is identical under any two adapters), while a nonempty trimmed
query whose retrieval call succeeds yields a 200 success response. -/
theorem query_validation
    (f f' : String → Int → Except String (List Chunk)) (q : String) (tk : Int) (mf : Nat) :
    (strip q = "" →
        search true f q tk mf = .clientError "Query cannot be empty" ∧
        search true f q tk mf = search true f' q tk mf) ∧
    (∀ l, strip q ≠ "" → f (strip q) tk = .ok l →
        ∃ r : SearchResponse, search true f q tk mf = .ok r) := by
  constructor
  · intro hq
    constructor <;> simp [search, hq]
  · intro l hq hf
    exact ⟨_, search_ok f q tk mf l hq hf⟩

/-- Witness for C5: the whitespace-only query `"   "` gets the 400 response
independently of the adapter, and `"castle"` with a successful retrieval gets
a success response. -/
theorem query_validation_witness :
    (search true (fun _ _ => .ok []) "   " 10 5 = .clientError "Query cannot be empty" ∧
      search true (fun _ _ => .ok []) "   " 10 5 =
        search true (fun _ _ => .error "boom") "   " 10 5) ∧
    (∃ r : SearchResponse, search true (fun _ _ => .ok []) "castle" 10 5 = .ok r) :=
  ⟨(query_validation (fun _ _ => .ok []) (fun _ _ => .error "boom") "   " 10 5).1
      (by decide),
   (query_validation (fun _ _ => .ok []) (fun _ _ => .error "boom") "castle" 10 5).2
      [] (by decide) rfl⟩

/-- C6: a retrieval failure is propagated as a 500 response carrying the
underlying message verbatim, never as a success response with results. -/
theorem retrieval_error_propagation
    (f : String → Int → Except String (List Chunk)) (q : String) (tk : Int) (mf : Nat)
    (e : String) (hq : strip q ≠ "") (hf : f (strip q) tk = .error e) :
    search true f q tk mf = .serverError e ∧
      ∀ r : SearchResponse, search true f q tk mf ≠ .ok r := by
  have h : search true f q tk mf = .serverError e := by simp [search, hq, hf]
  refine ⟨h, fun r hr => ?_⟩
  rw [h] at hr
  cases hr

/-- Witness for C6: the adapter raising "index corrupt" is surfaced as a 500
response with that exact message, and no success response is produced. -/
theorem retrieval_error_propagation_witness :
    search true (fun _ _ => .error "index corrupt") "castle" 10 5 =
        .serverError "index corrupt" ∧
      ∀ r : SearchResponse,
        search true (fun _ _ => .error "index corrupt") "castle" 10 5 ≠ .ok r :=
  retrieval_error_propagation (fun _ _ => .error "index corrupt") "castle" 10 5
    "index corrupt" (by decide) rfl

/-- C8: provided the retrieval adapter satisfies its contract for non-positive
counts (modelled from the spec: the adapter — the external vector-store call,
absent from the repository — treats `k ≤ 0` as the default `10`), a request
with `top_k ≤ 0` produces exactly the same response as `top_k = 10`: the
pipeline does not terminate abnormally and does not silently return zero
results because of the non-positive value, and every outcome is one of the
structured responses. -/
theorem nonpositive_top_k_no_crash
    (f : String → Int → Except String (List Chunk)) (q : String) (tk : Int) (mf : Nat)
    (hcontract : ∀ s k, k ≤ 0 → f s k = f s 10) (htk : tk ≤ 0) :
    search true f q tk mf = search true f q 10 mf ∧
      ((∃ r, search true f q tk mf = .ok r) ∨
        (∃ m, search true f q tk mf = .clientError m) ∨
        (∃ m, search true f q tk mf = .serverError m)) := by
  constructor
  · simp only [search]
    rw [hcontract _ _ htk]
  · rcases h : search true f q tk mf with r | m | m
    · exact Or.inl ⟨r, rfl⟩
    · exact Or.inr (Or.inl ⟨m, rfl⟩)
    · exact Or.inr (Or.inr ⟨m, rfl⟩)

/-- Witness for C8 at `top_k = -3` with a contract-satisfying adapter. -/
theorem nonpositive_top_k_no_crash_witness :
    search true (fun _ _ => .ok []) "castle" (-3) 5 =
        search true (fun _ _ => .ok []) "castle" 10 5 ∧
      ((∃ r, search true (fun _ _ => .ok []) "castle" (-3) 5 = .ok r) ∨
        (∃ m, search true (fun _ _ => .ok []) "castle" (-3) 5 = .clientError m) ∨
        (∃ m, search true (fun _ _ => .ok []) "castle" (-3) 5 = .serverError m)) :=
  nonpositive_top_k_no_crash (fun _ _ => .ok []) "castle" (-3) 5
    (fun _ _ _ => rfl) (by decide)

/-- C2: every group in a successful response contains exactly the chunks of the
retrieved stream whose `source` equals the group's `source`, reduced to
`(content, score)` pairs in their original arrival order. -/
theorem grouping_correctness
    (f : String → Int → Except String (List Chunk)) (q : String) (tk : Int) (mf : Nat)
    (l : List Chunk) (hq : strip q ≠ "") (hf : f (strip q) tk = .ok l) :
    ∃ r : SearchResponse, search true f q tk mf = .ok r ∧
      ∀ g ∈ r.results,
        g.chunks = (chunksFor l g.source).map fun c => (c.content, c.score) := by
  refine ⟨_, search_ok f q tk mf l hq hf, fun g hg => ?_⟩
  have hmem := mem_sortedResults hg
  rw [groupChunks_eq] at hmem
  obtain ⟨s, -, rfl⟩ := List.mem_map.mp hmem
  rfl

/-- Witness for C2 on a stream with an interleaved repeated source. -/
theorem grouping_correctness_witness :
    ∃ r : SearchResponse,
      search true
          (fun _ _ => .ok [⟨"x1", "X", "x.md", Rat.mk' 1 10⟩,
            ⟨"y1", "Y", "y.md", Rat.mk' 1 5⟩, ⟨"x2", "X", "x.md", Rat.mk' 3 20⟩])
          "castle" 10 5 = .ok r ∧
      ∀ g ∈ r.results,
        g.chunks = (chunksFor [⟨"x1", "X", "x.md", Rat.mk' 1 10⟩,
            ⟨"y1", "Y", "y.md", Rat.mk' 1 5⟩, ⟨"x2", "X", "x.md", Rat.mk' 3 20⟩]
          g.source).map fun c => (c.content, c.score) :=
  grouping_correctness _ "castle" 10 5 _ (by decide) rfl

/-- C3: in every successful response the results are sorted ascending by
`best_score`, and any two groups with equal `best_score` appear in the order in
which their sources were first encountered in the raw chunk stream. -/
theorem results_ordering
    (f : String → Int → Except String (List Chunk)) (q : String) (tk : Int) (mf : Nat)
    (l : List Chunk) (hq : strip q ≠ "") (hf : f (strip q) tk = .ok l) :
    ∃ r : SearchResponse, search true f q tk mf = .ok r ∧
      r.results.Pairwise bestScoreLE ∧
      ∀ g1 g2 : DocumentGroup, List.Sublist [g1, g2] r.results →
        g1.best_score = g2.best_score →
        List.Sublist [g1.source, g2.source] (sourcesInOrder l) :=
  ⟨_, search_ok f q tk mf l hq hf, sortedResults_pairwise l mf,
    fun _ _ h heq => sortedResults_stable l mf h heq⟩

/-- Witness for C3 on a stream with two distinct sources tied at the same
score. -/
theorem results_ordering_witness :
    ∃ r : SearchResponse,
      search true
          (fun _ _ => .ok [⟨"x1", "X", "x.md", Rat.mk' 1 5⟩,
            ⟨"y1", "Y", "y.md", Rat.mk' 1 5⟩]) "castle" 10 5 = .ok r ∧
      r.results.Pairwise bestScoreLE ∧
      ∀ g1 g2 : DocumentGroup, List.Sublist [g1, g2] r.results →
        g1.best_score = g2.best_score →
        List.Sublist [g1.source, g2.source]
          (sourcesInOrder [⟨"x1", "X", "x.md", Rat.mk' 1 5⟩,
            ⟨"y1", "Y", "y.md", Rat.mk' 1 5⟩]) :=
  results_ordering _ "castle" 10 5 _ (by decide) rfl

/-- C4: in every successful response `results` has length
`min(number of distinct sources, max_files)` and `count` equals that length;
in particular `max_files = 0` yields empty `results` with `count = 0` as a
valid success response. -/
theorem truncation_count
    (f : String → Int → Except String (List Chunk)) (q : String) (tk : Int) (mf : Nat)
    (l : List Chunk) (hq : strip q ≠ "") (hf : f (strip q) tk = .ok l) :
    ∃ r : SearchResponse, search true f q tk mf = .ok r ∧
      r.results.length = min (l.map Chunk.source).toFinset.card mf ∧
      r.count = r.results.length ∧
      (mf = 0 → r.results = [] ∧ r.count = 0) := by
  refine ⟨_, search_ok f q tk mf l hq hf, sortedResults_length l mf, rfl, fun h0 => ?_⟩
  subst h0
  have hnil : sortedResults l 0 = [] := rfl
  exact ⟨hnil, rfl⟩

/-- Witness for C4 at `max_files = 0` over a nonempty retrieved stream: the
response is a success with empty results and zero count. -/
theorem truncation_count_witness :
    ∃ r : SearchResponse,
      search true (fun _ _ => .ok [⟨"x1", "X", "x.md", Rat.mk' 1 10⟩]) "castle" 10 0 =
          .ok r ∧
        r.results.length =
          min ([⟨"x1", "X", "x.md", Rat.mk' 1 10⟩].map Chunk.source).toFinset.card 0 ∧
        r.count = r.results.length ∧
        (0 = 0 → r.results = [] ∧ r.count = 0) :=
  truncation_count _ "castle" 10 0 _ (by decide) rfl

/-- C1 fails as stated: the grouping loop never updates `best_score` with
`min(best_score, score)` — it assigns it only when the group is created — so on
an adapter output that is not ascending by score (the same source with score
0.2 and then 0.1, i.e. `Rat.mk' 1 5` and `Rat.mk' 1 10`), the group's
`best_score` is the first score 0.2, not the minimum 0.1. -/
theorem best_score_not_min_counterexample :
    (Rat.mk' 1 5 : ℚ) = 0.2 ∧ (Rat.mk' 1 10 : ℚ) = 0.1 ∧
    ∃ g ∈ groupChunks [⟨"t1", "A", "a.md", Rat.mk' 1 5⟩, ⟨"t2", "A", "a.md", Rat.mk' 1 10⟩],
      g.best_score ≠ minScore g.chunks ∧
      g.best_score = Rat.mk' 1 5 ∧ minScore g.chunks = Rat.mk' 1 10 := by
  refine ⟨?_, ?_, by decide⟩
  · rw [Rat.mk'_eq_divInt, Rat.divInt_eq_div]
    norm_num
  · rw [Rat.mk'_eq_divInt, Rat.divInt_eq_div]
    norm_num

/-- C1 (amended): `best_score` is seeded from the first-seen chunk of each
source and never updated afterwards, so over every chunk sequence that is
ascending by score — the order the retrieval adapter contract guarantees —
every group's `best_score` equals the minimum score among that group's
chunks. -/
theorem best_score_min_of_sorted_stream
    (f : String → Int → Except String (List Chunk)) (q : String) (tk : Int) (mf : Nat)
    (l : List Chunk) (hq : strip q ≠ "") (hf : f (strip q) tk = .ok l)
    (hsorted : l.Pairwise fun a b => a.score ≤ b.score) :
    ∃ r : SearchResponse, search true f q tk mf = .ok r ∧
      ∀ g ∈ r.results, g.best_score = minScore g.chunks :=
  ⟨_, search_ok f q tk mf l hq hf,
    fun _ hg => best_score_eq_minScore_of_sorted hsorted (mem_sortedResults hg)⟩

/-- Witness for the amended C1 on an ascending stream with a repeated
source. -/
theorem best_score_min_of_sorted_stream_witness :
    ∃ r : SearchResponse,
      search true
          (fun _ _ => .ok [⟨"x1", "X", "x.md", Rat.mk' 1 20⟩,
            ⟨"x2", "X", "x.md", Rat.mk' 1 10⟩, ⟨"y1", "Y", "y.md", Rat.mk' 1 5⟩])
          "castle" 10 5 = .ok r ∧
      ∀ g ∈ r.results, g.best_score = minScore g.chunks :=
  best_score_min_of_sorted_stream _ "castle" 10 5 _ (by decide) rfl (by decide)

/-- C10: every group's `best_score` equals the score of the first chunk of its
source in the stream, and `addChunk` never modifies the `best_score` (or
`source`) of an existing group — it only appends a new `(source, score)` pair
when a chunk with a new source arrives. -/
theorem best_score_assigned_at_creation (l : List Chunk) :
    (∀ g ∈ groupChunks l,
        g.best_score = ((chunksFor l g.source).head?.map Chunk.score).getD 0) ∧
    ∀ (grouped : List DocumentGroup) (c : Chunk),
      (addChunk grouped c).map (fun g => (g.source, g.best_score)) =
        (if c.source ∈ grouped.map DocumentGroup.source then
          grouped.map fun g => (g.source, g.best_score)
        else (grouped.map fun g => (g.source, g.best_score)) ++ [(c.source, c.score)]) := by
  constructor
  · intro g hg
    rw [groupChunks_eq] at hg
    obtain ⟨s, -, rfl⟩ := List.mem_map.mp hg
    rfl
  · intro grouped c
    simp only [addChunk]
    by_cases h : c.source ∈ grouped.map DocumentGroup.source
    · rw [if_pos h, if_pos h, List.map_map]
      refine List.map_congr_left fun g hg => ?_
      by_cases hgc : g.source = c.source <;> simp [Function.comp_def, hgc]
    · rw [if_neg h, if_neg h]
      simp only [List.map_append, List.map_map]
      congr 1
      · refine List.map_congr_left fun g hg => ?_
        by_cases hgc : g.source = c.source <;> simp [Function.comp_def, hgc]
      · simp

/-- Witness for C10: a group built from two same-source chunks carries the
first chunk's score as its `best_score`. -/
theorem best_score_assigned_at_creation_witness :
    (⟨"X", "x.md", [("x1", Rat.mk' 1 5), ("x2", Rat.mk' 1 10)],
        Rat.mk' 1 5⟩ : DocumentGroup).best_score =
      ((chunksFor [⟨"x1", "X", "x.md", Rat.mk' 1 5⟩, ⟨"x2", "X", "x.md", Rat.mk' 1 10⟩]
          (⟨"X", "x.md", [("x1", Rat.mk' 1 5), ("x2", Rat.mk' 1 10)],
            Rat.mk' 1 5⟩ : DocumentGroup).source).head?.map Chunk.score).getD 0 :=
  (best_score_assigned_at_creation
      [⟨"x1", "X", "x.md", Rat.mk' 1 5⟩, ⟨"x2", "X", "x.md", Rat.mk' 1 10⟩]).1
    _ (by decide)

/-- C7: the spec's worked scenario. For raw adapter output
(A,0.1), (B,0.2), (A,0.15), (C,0.05) with `max_files = 2`, grouping yields
A with best 0.1 and chunk scores 0.1, 0.15; B with best 0.2; C with best 0.05;
sorting ascending gives C, A, B, truncating to two gives `results = [C, A]`
and `count = 2`. -/
theorem scenario_four_chunks :
    search true
        (fun _ _ => .ok
          [⟨"a1", "A", "a.md", 0.1⟩, ⟨"b1", "B", "b.md", 0.2⟩,
           ⟨"a2", "A", "a.md", 0.15⟩, ⟨"c1", "C", "c.md", 0.05⟩]) "castle" 10 2 =
      .ok { query := "castle"
          , results := [⟨"C", "c.md", [("c1", 0.05)], 0.05⟩,
                        ⟨"A", "a.md", [("a1", 0.1), ("a2", 0.15)], 0.1⟩]
          , count := 2 } := by
  have h1 : (0.1 : ℚ) = Rat.mk' 1 10 := by
    rw [Rat.mk'_eq_divInt, Rat.divInt_eq_div]
    norm_num
  have h2 : (0.2 : ℚ) = Rat.mk' 1 5 := by
    rw [Rat.mk'_eq_divInt, Rat.divInt_eq_div]
    norm_num
  have h3 : (0.15 : ℚ) = Rat.mk' 3 20 := by
    rw [Rat.mk'_eq_divInt, Rat.divInt_eq_div]
    norm_num
  have h4 : (0.05 : ℚ) = Rat.mk' 1 20 := by
    rw [Rat.mk'_eq_divInt, Rat.divInt_eq_div]
    norm_num
  rw [h1, h2, h3, h4]
  decide
